import Mathlib

/-!
# Verification of the `cachex` caching library

A shallow embedding, in Lean 4, of the parts of the `cachex` Python library
(function-result caching keyed by deterministic fingerprints) that the
specification's claims are about:

* `src/cachex/_hashing.py` — the value-fingerprinting engine
  (`int_to_bytes`, `CacheFuncHasher.to_bytes` / `_to_bytes`);
* `src/cachex/_core.py` — `make_value_key` and `get_positional_arg_name`;
* `src/cachex/storage/base.py` — the `StoredObject` envelope;
* `src/cachex/storage/memory.py` and `src/cachex/storage/file.py` —
  in-memory and file-based stores;
* `src/cachex/storage/mongo.py` — the auto-reconnect retry loop.

Modelling conventions, used throughout:

* Python `bytes` values are `List Nat` (each entry a byte value).
* MD5 is out of scope for the spec (collision resistance is an explicit
  non-goal), so a streaming MD5 hasher is modelled by the sequence of
  chunks fed to `update`, and `digest()` by an injective function of that
  sequence (`md5digest`).  Distinct update sequences give distinct model
  digests, which mirrors "equal modulo hash collisions, treated as
  negligible".
* `datetime.now(UTC)` is modelled by an explicit integer clock argument
  threaded through the storage operations.
* Fallible Python code (raised exceptions) is modelled with `Except`.
-/

namespace Cachex

/-- Python `bytes`: a list of byte values. -/
abbrev ByteStr := List Nat

instance {ε α : Type} [DecidableEq ε] [DecidableEq α] :
    DecidableEq (Except ε α) := fun x y =>
  match x, y with
  | .ok a, .ok b =>
    if h : a = b then isTrue (by rw [h]) else isFalse (by simp [h])
  | .error e, .error f =>
    if h : e = f then isTrue (by rw [h]) else isFalse (by simp [h])
  | .ok _, .error _ => isFalse (by simp)
  | .error _, .ok _ => isFalse (by simp)

/-- Model of a streaming MD5 digest: `hashlib.new("md5")` starts an empty
chunk sequence, `hasher.update(b)` appends `b`, and `digest()` is an
injective coding (length-prefixed concatenation) of the chunk sequence.
This replaces the real MD5 compression function, whose collision behaviour
is outside the spec (§1 non-goals). -/
def md5digest (chunks : List ByteStr) : ByteStr :=
  chunks.foldr (fun c acc => (c.length :: c) ++ acc) []

/-- UTF-8 encoding of a single code point (RFC 3629), as produced by
Python's `str.encode()`. -/
def utf8Char (cp : Nat) : ByteStr :=
  if cp < 0x80 then [cp]
  else if cp < 0x800 then [0xC0 + cp / 64, 0x80 + cp % 64]
  else if cp < 0x10000 then
    [0xE0 + cp / 4096, 0x80 + (cp / 64) % 64, 0x80 + cp % 64]
  else
    [0xF0 + cp / 262144, 0x80 + (cp / 4096) % 64, 0x80 + (cp / 64) % 64,
      0x80 + cp % 64]

/-- `s.encode()` for a Python `str` given as its list of code points. -/
def utf8Encode (cps : List Nat) : ByteStr :=
  cps.foldr (fun c acc => utf8Char c ++ acc) []

/-- Code points of a Lean string, used to move between Lean `String`
parameter names and Python `str` values. -/
def strCodes (s : String) : List Nat :=
  s.data.map Char.toNat

/-! ## `int_to_bytes` (src/cachex/_hashing.py, lines 103-105)

```python
def int_to_bytes(i: int) -> bytes:
    num_bytes = (i.bit_length() + 8) // 8
    return i.to_bytes(num_bytes, "little", signed=True)
```
-/

/-- Halving recursion for `int.bit_length()`, fuelled so it is structural
(and hence computes by kernel reduction); `m` itself is always enough
fuel. -/
def natBitLengthAux : Nat → Nat → Nat
  | 0, _ => 0
  | fuel + 1, m => if m = 0 then 0 else natBitLengthAux fuel (m / 2) + 1

/-- Python `int.bit_length()` of a nonnegative integer: `0` for `0`,
otherwise one more than the floor base-2 logarithm. -/
def natBitLength (m : Nat) : Nat :=
  natBitLengthAux m m

/-- Python `i.bit_length()`: bit length of the absolute value. -/
def pyBitLength (i : Int) : Nat :=
  natBitLength i.natAbs

/-- Little-endian base-256 digits of a natural number, `n` bytes wide
(the byte layout produced by `int.to_bytes(n, "little")`). -/
def natToBytesLE : Nat → Nat → ByteStr
  | 0, _ => []
  | n + 1, m => m % 256 :: natToBytesLE n (m / 256)

/-- Value of a little-endian byte string as a natural number. -/
def bytesToNatLE : ByteStr → Nat
  | [] => 0
  | b :: bs => b + 256 * bytesToNatLE bs

/-- `i.to_bytes(n, "little", signed=True)`: the two's-complement residue
`i mod 2^(8n)` written as `n` little-endian bytes. -/
def intToBytesLE (n : Nat) (i : Int) : ByteStr :=
  natToBytesLE n (i.emod (2 ^ (8 * n))).toNat

/-- `int.from_bytes(bs, "little", signed=True)`: decode a little-endian
two's-complement byte string. -/
def bytesToIntLE (bs : ByteStr) : Int :=
  let u := bytesToNatLE bs
  if 2 * u < 2 ^ (8 * bs.length) then (u : Int)
  else (u : Int) - 2 ^ (8 * bs.length)

/-- `int_to_bytes` from `src/cachex/_hashing.py`: width
`(i.bit_length() + 8) // 8`, little-endian, two's complement. -/
def int_to_bytes (i : Int) : ByteStr :=
  intToBytesLE ((pyBitLength i + 8) / 8) i

/-! ## The hasher core: `CacheFuncHasher.to_bytes` / `_to_bytes`
(src/cachex/_hashing.py, lines 141-321)

`PyVal` is the domain of Python values the claims range over.  The
constructors cover the dispatch arms of `_to_bytes` that can apply to
them; `obj` stands for any value of a user-defined type that matches none
of the built-in `isinstance` arms (in the source those values fall
through every arm before the type-encoder / `__reduce__` region).  It
carries a runtime-type tag (for `isinstance(obj, type_)` against the
type-encoder mapping), the type's `__qualname__`, and the result of
`obj.__reduce__()` (`none` models a `__reduce__` that raises).

Two aspects of `to_bytes` are deliberately not replayed here and are
handled by the separate heap model further below:

* the per-thread hash stack: an acyclic (inductive) value is never its
  own descendant by identity, so the `obj in hash_stacks.current` check
  can never fire on the values of this type;
* the `(tname, key_(obj))` memo table: a memo hit returns a byte string
  previously computed by the same deterministic code for an equal key,
  so it never changes the result, only the work done.

Recursion through a user type encoder is not structurally decreasing
(the encoder output is arbitrary, and the source can in fact recurse
without bound there, bounded only by Python's recursion limit), so the
model takes a `depth` budget that is consumed exactly when an encoder
fires.  All theorems below hold for every budget. -/

inductive PyVal where
  | pybytes (b : ByteStr)
  | pystr (cps : List Nat)
  | pyint (i : Int)
  | pybool (b : Bool)
  | pynone
  | pytuple (xs : List PyVal)
  | pylist (xs : List PyVal)
  | pydict (ps : List (PyVal × PyVal))
  | obj (ty : Nat) (tname : ByteStr) (reduceForm : Option (List PyVal))
deriving Repr

/-- `type(obj).__qualname__.encode()` (to_bytes, line 157). -/
def typeName : PyVal → ByteStr
  | .pybytes _ => strCodes "bytes"
  | .pystr _ => strCodes "str"
  | .pyint _ => strCodes "int"
  | .pybool _ => strCodes "bool"
  | .pynone => strCodes "NoneType"
  | .pytuple _ => strCodes "tuple"
  | .pylist _ => strCodes "list"
  | .pydict _ => strCodes "dict"
  | .obj _ tn _ => tn

/-- Errors `to_bytes` can surface.  `unhashable` is `UnhashableTypeError`;
`depthExceeded` models Python's `RecursionError` on unbounded
type-encoder recursion (never reached by the claims' inputs). -/
inductive HashErr where
  | unhashable
  | depthExceeded
deriving Repr, DecidableEq

/-- A user type-encoder mapping: ordered `(runtime_type, encoder)` entries.
An encoder returning `Option.none` models an encoder that raises. -/
abbrev TypeEncoders := List (Nat × (PyVal → Option PyVal))

/-- `isinstance(obj, type_)` against an `obj` value's runtime-type tag;
every modelled non-`obj` value matches an `isinstance` arm before the
encoder region, so only `obj` values are ever tested here. -/
def tyMatches (t : Nat) : PyVal → Bool
  | .obj ty _ _ => t == ty
  | _ => false

mutual

/-- `CacheFuncHasher.to_bytes` (lines 155-185) on acyclic values: the
result is `b"%s:%s" % (tname, self._to_bytes(obj))`; an
`UnhashableTypeError` raised by `_to_bytes` propagates (the `finally`
block only repairs the hash stack, which is modelled separately). -/
def toBytes (enc : TypeEncoders) (depth : Nat) (v : PyVal) :
    Except HashErr ByteStr := do
  let body ← toBytesAux enc depth v
  return typeName v ++ strCodes ":" ++ body

/-- `CacheFuncHasher._to_bytes` (lines 192-320), restricted to the
modelled value domain.  The `elif` arms appear in source order:
`bytes`/`bytearray`, `str`, (`float` — no modelled value is a float),
`int` — which, as in Python, also captures `bool` since `bool` is a
subclass of `int` —, `list`/`tuple`, `dict`, `None`, `True`, `False`,
then (after the arms for dataclasses, enums, files, … that no modelled
value matches) the type-encoder region and the `__reduce__` catch-all.
Hashing a list/tuple/dict streams `to_bytes(item)` chunks through a
fresh MD5 hasher. -/
def toBytesAux (enc : TypeEncoders) (depth : Nat) (v : PyVal) :
    Except HashErr ByteStr :=
  match v with
  | .pybytes b => .ok b
  | .pystr cps => .ok (utf8Encode cps)
  | .pyint i => .ok (int_to_bytes i)
  | .pybool b =>
    -- `isinstance(obj, int)` is true for Python booleans, so this arm
    -- fires before the `obj is True` / `obj is False` arms, which are
    -- unreachable dead code in the source.
    .ok (int_to_bytes (if b then 1 else 0))
  | .pytuple xs => do
    let chunks ← hashItems enc depth xs
    return md5digest chunks
  | .pylist xs => do
    let chunks ← hashItems enc depth xs
    return md5digest chunks
  | .pydict ps => do
    let chunks ← hashPairs enc depth ps
    return md5digest chunks
  | .pynone => .ok (strCodes "0")
  | .obj ty tn reduceForm =>
    if enc.isEmpty then
      -- `elif self._type_encoders:` is false for `None` and for an empty
      -- mapping alike, so control reaches the `__reduce__` catch-all.
      match reduceForm with
      | Option.none => .error .unhashable
      | Option.some items => do
        let chunks ← hashItems enc depth items
        return md5digest chunks
    else
      match depth with
      | 0 => .error .depthExceeded
      | d + 1 => do
        let chunks ← encoderChunks enc d enc ty tn reduceForm
        return md5digest chunks

/-- The streaming-update loop `for item in obj: self.update(item, h)`:
the chunk sequence fed to the fresh MD5 hasher. -/
def hashItems (enc : TypeEncoders) (depth : Nat) (xs : List PyVal) :
    Except HashErr (List ByteStr) :=
  match xs with
  | [] => .ok []
  | x :: rest => do
    let b ← toBytes enc depth x
    let bs ← hashItems enc depth rest
    return b :: bs

/-- The dict loop `for item in obj.items(): self.update(item, h)`: each
`(key, value)` pair is hashed as the tuple it is in Python, i.e. the
chunk is `to_bytes((k, v)) = b"tuple:" + md5(to_bytes(k), to_bytes(v))`
(written out here so the recursion stays structural). -/
def hashPairs (enc : TypeEncoders) (depth : Nat)
    (ps : List (PyVal × PyVal)) : Except HashErr (List ByteStr) :=
  match ps with
  | [] => .ok []
  | (k, val) :: rest => do
    let bk ← toBytes enc depth k
    let bv ← toBytes enc depth val
    let bs ← hashPairs enc depth rest
    return (strCodes "tuple" ++ strCodes ":" ++ md5digest [bk, bv]) :: bs

/-- The type-encoder loop (lines 296-308): every entry whose type matches
feeds `encoder(value)` back through `to_bytes` into the fresh hasher; an
encoder that raises becomes `UnhashableTypeError`.  Entries that do not
match contribute nothing, and the digest is returned even when no entry
matched at all. -/
def encoderChunks (enc : TypeEncoders) (depth : Nat)
    (entries : TypeEncoders) (ty : Nat) (tn : ByteStr)
    (reduceForm : Option (List PyVal)) : Except HashErr (List ByteStr) :=
  match entries with
  | [] => .ok []
  | (t, e) :: rest =>
    if tyMatches t (.obj ty tn reduceForm) then
      match e (.obj ty tn reduceForm) with
      | Option.none => .error .unhashable
      | Option.some nv => do
        let b ← toBytes enc depth nv
        let bs ← encoderChunks enc depth rest ty tn reduceForm
        return b :: bs
    else encoderChunks enc depth rest ty tn reduceForm

end

/-! ## The key builder: `make_value_key` (src/cachex/_core.py, lines 23-78)
and `get_positional_arg_name` (lines 117-137)

A callable is described by what `make_value_key` inspects: its
`inspect.signature` parameter list (name and kind, in declaration order —
for a bound method Python's `inspect.signature` already excludes the
receiver) and whether it is a `types.MethodType` instance (a bound
method).  Call arguments are the `*args` tuple and the `**kwargs` pairs
the wrapper received, which for a bound method do not include the
receiver either (it is bound inside the method object). -/

inductive ParamKind where
  | positionalOnly
  | positionalOrKeyword
  | varPositional
  | keywordOnly
  | varKeyword
deriving Repr, DecidableEq

structure PyFunc where
  params : List (String × ParamKind)
  isBoundMethod : Bool
deriving Repr

/-- `get_positional_arg_name(func, arg_index)`: the name of the
`arg_index`-th signature parameter when it is a named positional
parameter, else `none` (out-of-range indices included; the `arg_index <
0` guard is vacuous over `Nat`). -/
def get_positional_arg_name (f : PyFunc) (idx : Nat) : Option String :=
  match f.params.get? idx with
  | Option.none => Option.none
  | Option.some (n, k) =>
    if k = ParamKind.positionalOrKeyword ∨ k = ParamKind.positionalOnly
    then Option.some n else Option.none

/-- The value hashed for one argument pair: `update_hash((arg_name,
arg_value), args_hasher, type_encoders)` hashes the Python tuple
`(arg_name, arg_value)`, where a `None` name stays `None`. -/
def argPairVal (name : Option String) (v : PyVal) : PyVal :=
  .pytuple [match name with
            | Option.some n => .pystr (strCodes n)
            | Option.none => .pynone, v]

/-- `UnhashableParamError(func, arg_name, arg_value, e)` carries the
offending parameter name (the value itself is immaterial to the claims).
`depthExceeded` propagates unchanged (the source only converts
`UnhashableTypeError`). -/
inductive KeyErr where
  | unhashableParam (name : Option String)
  | depthExceeded
deriving Repr, DecidableEq

/-- `arg_name.startswith("_")`: the name's first character is an
underscore. -/
def startsWithUnderscore (n : String) : Bool :=
  match n.data with
  | [] => false
  | c :: _ => c = '_'

/-- The hashing loop of `make_value_key` (lines 64-72): fold the
remaining pairs into the streaming hasher's chunk sequence, skipping any
pair whose name starts with `"_"`. -/
def hashArgPairs (enc : TypeEncoders) (depth : Nat) :
    List (Option String × PyVal) → Except KeyErr (List ByteStr)
  | [] => .ok []
  | (name, v) :: rest =>
    if (match name with
        | Option.some n => startsWithUnderscore n
        | Option.none => false) then
      hashArgPairs enc depth rest
    else
      match toBytes enc depth (argPairVal name v) with
      | .error .unhashable => .error (.unhashableParam name)
      | .error .depthExceeded => .error .depthExceeded
      | .ok b => do
        let bs ← hashArgPairs enc depth rest
        return b :: bs

/-- The loop `for arg_idx in range(len(args)): arg_pairs.append(
(get_positional_arg_name(func, arg_idx), args[arg_idx]))`, starting at
index `idx`. -/
def posArgPairsFrom (f : PyFunc) (idx : Nat) :
    List PyVal → List (Option String × PyVal)
  | [] => []
  | a :: rest => (get_positional_arg_name f idx, a) :: posArgPairsFrom f (idx + 1) rest

/-- `make_value_key(function_key, func, type_encoders, *args, **kwargs)`:
pair positional arguments with their signature names, append keyword
pairs in insertion order, drop the first pair when `func` is a bound
method, hash the remaining pairs (skipping `_`-prefixed names) and
return `f"{function_key}_{value_key}"`.  The hex digest is represented
by the model digest bytes appended after the `"_"` separator. -/
def make_value_key (function_key : ByteStr) (f : PyFunc)
    (enc : TypeEncoders) (depth : Nat) (args : List PyVal)
    (kwargs : List (String × PyVal)) : Except KeyErr ByteStr := do
  let posPairs := posArgPairsFrom f 0 args
  let kwPairs := kwargs.map (fun p => (Option.some p.1, p.2))
  let argPairs := posPairs ++ kwPairs
  let argPairs := if f.isBoundMethod then argPairs.drop 1 else argPairs
  let chunks ← hashArgPairs enc depth argPairs
  return function_key ++ strCodes "_" ++ md5digest chunks

/-! ## The stored-value envelope: `StoredObject`
(src/cachex/storage/base.py, lines 119-147)

Timestamps and `timedelta` durations are modelled in whole seconds as
integers (`expires_in` values the library itself constructs are always
whole seconds).  `datetime.now(UTC)` is the explicit `now` argument. -/

/-- The `expires_in` argument: `None`, an `int`, a `timedelta`, or any
other value (a `float`, say — carried as a rational so the claims can
speak about positive non-integer numbers of seconds). -/
inductive ExpiresIn where
  | enone
  | eint (n : Int)
  | etd (secs : Int)
  | efloat (q : ℚ)
deriving Repr

inductive EnvErr where
  | typeError
  | valueError
deriving Repr, DecidableEq

structure StoredObject (T : Type) where
  expires_at : Option Int
  data : T
deriving Repr, DecidableEq

/-- `StoredObject.new(data, expires_in)` (lines 126-138):

```python
if expires_in is not None and not isinstance(expires_in, timedelta):
    if not isinstance(expires_in, int):
        raise TypeError(...)
    expires_in = timedelta(seconds=expires_in)
if expires_in is not None and expires_in.total_seconds() <= 0:
    raise ValueError(...)
return cls(data=data,
           expires_at=(datetime.now(UTC) + expires_in) if expires_in else None)
```

Note the final conversion guards on the *truthiness* of `expires_in`
(a zero `timedelta` is falsy), not on `is not None`. -/
def StoredObject.new (T : Type) (data : T) (expires_in : ExpiresIn)
    (now : Int) : Except EnvErr (StoredObject T) := do
  let asTd : Option Int ←
    match expires_in with
    | .enone => pure Option.none
    | .etd s => pure (Option.some s)
    | .eint n => pure (Option.some n)
    | .efloat _ => throw EnvErr.typeError
  if h : asTd.isSome then
    if asTd.get h ≤ 0 then throw EnvErr.valueError
    else
      return { expires_at :=
        if asTd.get h ≠ 0 then Option.some (now + asTd.get h)
        else Option.none, data := data }
  else
    return { expires_at := Option.none, data := data }

/-- `StoredObject.expired` (lines 140-143): `expires_at` is present and
`now` has reached it. -/
def StoredObject.expired (so : StoredObject T) (now : Int) : Bool :=
  match so.expires_at with
  | Option.none => false
  | Option.some t => t ≤ now

/-! ## In-memory storage: `MemoryStorage` / `AsyncMemoryStorage`
(src/cachex/storage/memory.py)

The async variant is line-for-line identical modulo the lock type and
`await` points, so one model covers both.  The `dict` is an association
list; the mutex is irrelevant to the sequential claims. -/

/-- The `value: str | bytes` accepted by the public `set`. -/
inductive StrOrBytes where
  | ofStr (cps : List Nat)
  | ofBytes (b : ByteStr)
deriving Repr

/-- `if isinstance(value, str): value = value.encode("utf-8")`. -/
def StrOrBytes.toBytes : StrOrBytes → ByteStr
  | .ofStr cps => utf8Encode cps
  | .ofBytes b => b

abbrev MemStore := List (String × StoredObject ByteStr)

def storeInsert (m : MemStore) (k : String) (so : StoredObject ByteStr) :
    MemStore :=
  (k, so) :: m.filter (fun p => p.1 ≠ k)

def storeRemove (m : MemStore) (k : String) : MemStore :=
  m.filter (fun p => p.1 ≠ k)

def storeFind (m : MemStore) (k : String) : Option (StoredObject ByteStr) :=
  (m.find? (fun p => p.1 = k)).map Prod.snd

namespace MemoryStorage

/-- `MemoryStorage.set` (lines 26-39): encode a `str` value to UTF-8 and
store a fresh envelope under the key. -/
def set (m : MemStore) (key : String) (value : StrOrBytes)
    (expires_in : ExpiresIn) (now : Int) : Except EnvErr MemStore := do
  let so ← StoredObject.new ByteStr value.toBytes expires_in now
  return storeInsert m key so

/-- `MemoryStorage.get` (lines 41-61): missing key → `None`; expired
entry → drop it and return `None`; otherwise the stored bytes.  Returns
the value together with the (possibly shrunk) store. -/
def get (m : MemStore) (key : String) (now : Int) :
    Option ByteStr × MemStore :=
  match storeFind m key with
  | Option.none => (Option.none, m)
  | Option.some so =>
    if so.expired now then (Option.none, storeRemove m key)
    else (Option.some so.data, m)

/-- `MemoryStorage.delete` (lines 63-72). -/
def delete (m : MemStore) (key : String) : MemStore :=
  storeRemove m key

end MemoryStorage

/-! ## File storage: `FileStorage` / `AsyncFileStorage`
(src/cachex/storage/file.py)

The directory is an association list from file name to the pickled
envelope (`pickle` round-trips, so the envelope is stored directly).
`_safe_file_name` keeps alphanumeric code points and replaces every
other code point by its decimal string; the preceding NFKD normalization
is the identity on the ASCII hex-digest keys the library produces and is
not modelled.  `_write`'s temp-file/rename dance and its silent
swallowing of `OSError` are I/O concerns outside this sequential model:
`set` models the successful write. -/

def safeFileName (key : String) : String :=
  String.mk (key.data.foldr
    (fun c acc => (if c.isAlphanum then [c] else (toString c.toNat).data) ++ acc)
    [])

namespace FileStorage

/-- `FileStorage.set` (lines 86-102): encode `str` values to UTF-8, build
the envelope, write it to `{path}/{safe_name}`. -/
def set (fs : MemStore) (key : String) (value : StrOrBytes)
    (expires_in : ExpiresIn) (now : Int) : Except EnvErr MemStore := do
  let so ← StoredObject.new ByteStr value.toBytes expires_in now
  return storeInsert fs (safeFileName key) so

/-- `FileStorage.get` (lines 104-124): missing file → `None`; expired →
unlink and return `None`; else the envelope's data. -/
def get (fs : MemStore) (key : String) (now : Int) :
    Option ByteStr × MemStore :=
  match storeFind fs (safeFileName key) with
  | Option.none => (Option.none, fs)
  | Option.some so =>
    if so.expired now then (Option.none, storeRemove fs (safeFileName key))
    else (Option.some so.data, fs)

end FileStorage

/-! ## Mongo retry loop: `_MongoCommon._retry_for_auto_reconnect`
(src/cachex/storage/mongo.py, lines 217-245)

The driver call is modelled as a function from the attempt index (0 for
the first try) to its outcome, so a given failure pattern is a concrete
input.  The async variant is identical modulo `asyncio.sleep`.  The
model returns the final outcome together with the number of attempts
made and the list of back-off sleeps performed (in seconds, as exact
rationals — the source computes them in floating point but every claim
about them is order-of-magnitude exact at the modelled inputs). -/

inductive MongoErr where
  | autoReconnect
  | operationFailure
deriving Repr, DecidableEq

structure RetryTrace (α : Type) where
  result : Except MongoErr α
  attempts : Nat
  sleeps : List ℚ
deriving Repr

/-- One circuit of the `while True` loop, entered having already seen
`failures` consecutive `AutoReconnect` failures. -/
def retryFrom (maxFailures : Nat) (maxBackoff baseBackoff : ℚ)
    (call : Nat → Except MongoErr α) (failures : Nat) : RetryTrace α :=
  match call failures with
  | .ok a => ⟨.ok a, failures + 1, []⟩
  | .error .operationFailure => ⟨.error .operationFailure, failures + 1, []⟩
  | .error .autoReconnect =>
    if h : failures + 1 > maxFailures then
      ⟨.error .autoReconnect, failures + 1, []⟩
    else
      let backoff := min maxBackoff (baseBackoff * 2 ^ (failures + 1))
      let rest := retryFrom maxFailures maxBackoff baseBackoff call
        (failures + 1)
      ⟨rest.result, rest.attempts,
        (if backoff > 0 then [backoff] else []) ++ rest.sleeps⟩
termination_by maxFailures - failures

/-- `_retry_for_auto_reconnect(call)`: start with zero failures. -/
def retryForAutoReconnect (maxFailures : Nat) (maxBackoff baseBackoff : ℚ)
    (call : Nat → Except MongoErr α) : RetryTrace α :=
  retryFrom maxFailures maxBackoff baseBackoff call 0

/-! ## Cycle detection: `to_bytes` over the object heap
(src/cachex/_hashing.py, lines 48-100 and 155-185)

Python values can reference themselves, which no inductive type can
express, so the hash-stack mechanics of `to_bytes` are modelled over an
explicit heap: a finite map from object identity (`id(obj)`) to the
object's node, where container nodes hold the identities of their
elements.  Cyclic heaps are ordinary values of this type.

`HashStack.push`/`pop` keep an ordered set of identities per thread
(`push` appends, `pop` removes the most recent entry); the model threads
that stack through the computation and returns it with the result, so
"the stack is restored on every exit path" is a statement about the
output, not a construction artifact.

The node kinds cover the `_to_bytes` arms cycles can flow through (the
container arms) plus representative leaves; `hfail` is a leaf whose
`_to_bytes` raises `UnhashableTypeError` (e.g. the `__reduce__`
catch-all failing), exercising the `finally` path.  The memo table is
again omitted (a memoizable "simple" value contains no container, hence
no cycle, and a memo hit replays a byte string the same deterministic
code computed before).

Python recursion depth is modelled by explicit fuel: running out of fuel
is the model's `RecursionError`.  The theorems show fuel exceeding the
number of heap identities not already on the stack never runs out — the
code's cycle check is exactly what makes fingerprinting terminate on
self-referential containers. -/

/-- `_CYCLE_PLACEHOLDER` (line 28). -/
def cyclePlaceholder : ByteStr :=
  strCodes "hyprxa-letsbuildkickassopensourcesoftware"

inductive HNode where
  | hbytes (b : ByteStr)
  | hstr (cps : List Nat)
  | hint (i : Int)
  | hbool (b : Bool)
  | hnone
  | hlist (ids : List Nat)
  | htuple (ids : List Nat)
  | hfail
deriving Repr, DecidableEq

abbrev Heap := List (Nat × HNode)

def hnodeTypeName : HNode → ByteStr
  | .hbytes _ => strCodes "bytes"
  | .hstr _ => strCodes "str"
  | .hint _ => strCodes "int"
  | .hbool _ => strCodes "bool"
  | .hnone => strCodes "NoneType"
  | .hlist _ => strCodes "list"
  | .htuple _ => strCodes "tuple"
  | .hfail => strCodes "Unhashable"

inductive StackErr where
  | unhashable
  | outOfFuel
  | danglingId
deriving Repr, DecidableEq

/-- Outcomes carry the hash stack as it stands when control leaves the
call, on success and on a propagating exception alike. -/
abbrev StackOutcome (α : Type) := Except (StackErr × List Nat) (α × List Nat)

mutual

/-- `to_bytes` over the heap: cycle check against the per-thread stack,
push, `b"%s:%s" % (tname, _to_bytes(obj))`, and a `finally` that pops
the stack both when the body returns and when it raises.  `danglingId`
flags a child identity absent from the heap — impossible for the heaps
a live Python program induces, and never hit by the theorems. -/
def hashObj (heap : Heap) (fuel : Nat) (objId : Nat) (stack : List Nat) :
    StackOutcome ByteStr :=
  match fuel with
  | 0 => .error (.outOfFuel, stack)
  | fuel + 1 =>
    if objId ∈ stack then .ok (cyclePlaceholder, stack)
    else
      match heap.lookup objId with
      | Option.none => .error (.danglingId, stack)
      | Option.some node =>
        let pushed := stack ++ [objId]
        match
          (match node with
            | .hbytes b => (.ok (b, pushed) : StackOutcome ByteStr)
            | .hstr cps => .ok (utf8Encode cps, pushed)
            | .hint i => .ok (int_to_bytes i, pushed)
            | .hbool b => .ok (int_to_bytes (if b then 1 else 0), pushed)
            | .hnone => .ok (strCodes "0", pushed)
            | .hlist ids =>
              match hashIds heap fuel ids pushed with
              | .ok (cs, s) => .ok (md5digest cs, s)
              | .error e => .error e
            | .htuple ids =>
              match hashIds heap fuel ids pushed with
              | .ok (cs, s) => .ok (md5digest cs, s)
              | .error e => .error e
            | .hfail => .error (.unhashable, pushed)) with
        | .ok (b, s) =>
          .ok (hnodeTypeName node ++ strCodes ":" ++ b, s.dropLast)
        | .error (e, s) => .error (e, s.dropLast)

/-- The container loop `for item in obj: self.update(item, h)`, threading
the thread-local stack through the children. -/
def hashIds (heap : Heap) (fuel : Nat) (ids : List Nat)
    (stack : List Nat) : StackOutcome (List ByteStr) :=
  match ids with
  | [] => .ok ([], stack)
  | i :: rest =>
    match hashObj heap fuel i stack with
    | .error e => .error e
    | .ok (b, s) =>
      match hashIds heap fuel rest s with
      | .error e => .error e
      | .ok (bs, s2) => .ok (b :: bs, s2)

end

/-- The hash stack an outcome left behind. -/
def outcomeStack : StackOutcome α → List Nat
  | .ok (_, s) => s
  | .error (_, s) => s

/-- Whether an outcome is the model's `RecursionError`. -/
def isOutOfFuel : StackOutcome α → Bool
  | .error (.outOfFuel, _) => true
  | _ => false

/-- The number of heap identities not already on the stack: the bound on
how much deeper the hash stack can grow. -/
def freshCount (heap : Heap) (stack : List Nat) : Nat :=
  ((heap.map Prod.fst).toFinset \ stack.toFinset).card

/-- The canonical self-referential container: `l = []; l.append(l)` —
one heap cell whose list node contains its own identity. -/
def selfRefHeap : Heap := [(0, HNode.hlist [0])]

/-! # Theorems -/

/-! ## Supporting lemmas for `int_to_bytes` -/

theorem bytesToNatLE_natToBytesLE (n : Nat) : ∀ m : Nat,
    bytesToNatLE (natToBytesLE n m) = m % 256 ^ n := by
  induction n with
  | zero => intro m; simp [natToBytesLE, bytesToNatLE, Nat.mod_one]
  | succ n ih =>
    intro m
    simp only [natToBytesLE, bytesToNatLE, ih]
    rw [pow_succ']
    rw [Nat.mod_mul]

theorem length_natToBytesLE (n : Nat) : ∀ m : Nat,
    (natToBytesLE n m).length = n := by
  induction n with
  | zero => intro m; simp [natToBytesLE]
  | succ n ih => intro m; simp [natToBytesLE, ih]

theorem lt_two_pow_natBitLengthAux (fuel : Nat) : ∀ m : Nat, m ≤ fuel →
    m < 2 ^ natBitLengthAux fuel m := by
  induction fuel with
  | zero =>
    intro m hm
    simp only [natBitLengthAux]
    omega
  | succ fuel ih =>
    intro m hm
    simp only [natBitLengthAux]
    by_cases h0 : m = 0
    · simp [h0]
    · simp only [h0, if_false]
      have hrec : m / 2 < 2 ^ natBitLengthAux fuel (m / 2) := ih (m / 2) (by omega)
      rw [pow_succ']
      omega

theorem natAbs_lt_two_pow_pyBitLength (i : Int) :
    i.natAbs < 2 ^ pyBitLength i := by
  unfold pyBitLength natBitLength
  exact lt_two_pow_natBitLengthAux i.natAbs i.natAbs le_rfl

/-- The width picked by `int_to_bytes` always suffices: decoding the
produced bytes as little-endian two's complement gives back the input. -/
theorem bytesToIntLE_int_to_bytes (i : Int) :
    bytesToIntLE (int_to_bytes i) = i := by
  unfold int_to_bytes intToBytesLE bytesToIntLE
  set bl := pyBitLength i with hbl
  set n := (bl + 8) / 8 with hn
  have hdm := Nat.div_add_mod (bl + 8) 8
  have hml : (bl + 8) % 8 < 8 := Nat.mod_lt _ (by norm_num)
  have h8 : 8 * n ≥ bl + 1 := by omega
  have hn1 : 1 ≤ n := by omega
  have habs : i.natAbs < 2 ^ (8 * n - 1) :=
    Nat.lt_of_lt_of_le (natAbs_lt_two_pow_pyBitLength i)
      (Nat.pow_le_pow_right (by norm_num) (by omega))
  have hsplitN : (2 : Nat) ^ (8 * n) = 2 * 2 ^ (8 * n - 1) := by
    rw [← pow_succ']
    congr 1
    omega
  have h256 : (256 : Nat) ^ n = 2 ^ (8 * n) := by
    rw [show (256 : Nat) = 2 ^ 8 from rfl, ← pow_mul]
  have hNpos : (0 : Int) < 2 ^ (8 * n) := by positivity
  have hge : 0 ≤ i.emod (2 ^ (8 * n)) := Int.emod_nonneg i (ne_of_gt hNpos)
  have hlt : i.emod (2 ^ (8 * n)) < 2 ^ (8 * n) := Int.emod_lt_of_pos i hNpos
  set m : Nat := (i.emod (2 ^ (8 * n))).toNat with hm
  have hmI : (m : Int) = i.emod (2 ^ (8 * n)) := Int.toNat_of_nonneg hge
  have hcast : ((2 ^ (8 * n) : Nat) : Int) = 2 ^ (8 * n) := by push_cast; ring
  have hcastB : ((2 ^ (8 * n - 1) : Nat) : Int) = 2 ^ (8 * n - 1) := by
    push_cast; ring
  have hmlt : m < 2 ^ (8 * n) := by
    have : (m : Int) < ((2 ^ (8 * n) : Nat) : Int) := by rw [hmI, hcast]; exact hlt
    exact_mod_cast this
  have hmmod : m % 256 ^ n = m := by
    rw [h256]
    exact Nat.mod_eq_of_lt hmlt
  have habsI : (i.natAbs : Int) < ((2 ^ (8 * n - 1) : Nat) : Int) := by
    exact_mod_cast habs
  have hiu : i < 2 ^ (8 * n - 1) := by
    have h1 : i ≤ (i.natAbs : Int) := Int.le_natAbs
    rw [hcastB] at habsI
    omega
  have hil : -(2 ^ (8 * n - 1)) < i := by
    have h1 : -(i.natAbs : Int) ≤ i := by
      rcases Int.natAbs_eq i with h | h <;> omega
    rw [hcastB] at habsI
    omega
  have hsplitI : (2 : Int) ^ (8 * n) = 2 * 2 ^ (8 * n - 1) := by
    have := congrArg (fun k : Nat => (k : Int)) hsplitN
    push_cast at this
    linarith
  simp only [bytesToNatLE_natToBytesLE, length_natToBytesLE]
  rw [hmmod]
  by_cases hi : 0 ≤ i
  · have hemod : i.emod (2 ^ (8 * n)) = i :=
      Int.emod_eq_of_lt hi (by omega)
    have hcond : 2 * m < 2 ^ (8 * n) := by
      have : (2 * m : Int) < ((2 ^ (8 * n) : Nat) : Int) := by
        rw [hcast]
        rw [hmI, hemod]
        omega
      exact_mod_cast this
    rw [if_pos hcond, hmI, hemod]
  · push_neg at hi
    have hemod : i.emod (2 ^ (8 * n)) = i + 2 ^ (8 * n) := by
      have h1 : (i + 2 ^ (8 * n) * 1).emod (2 ^ (8 * n)) = i.emod (2 ^ (8 * n)) :=
        Int.add_mul_emod_self_left i (2 ^ (8 * n)) 1
      have h2 : (i + 2 ^ (8 * n) * 1).emod (2 ^ (8 * n)) = i + 2 ^ (8 * n) * 1 :=
        Int.emod_eq_of_lt (by omega) (by omega)
      omega
    have hcond : ¬ 2 * m < 2 ^ (8 * n) := by
      intro hcon
      have : (2 * m : Int) < ((2 ^ (8 * n) : Nat) : Int) := by
        exact_mod_cast hcon
      rw [hcast] at this
      rw [hmI, hemod] at this
      omega
    rw [if_neg hcond]
    rw [hmI, hemod]
    ring

/-! ## C7 — integer encoding -/

/-- C7, counterexample: `int_to_bytes` is *not* minimal-width.  At
`i = -128` it produces the two bytes `80 FF`, yet the single byte `80`
already decodes to `-128` as little-endian two's complement, so a
strictly shorter round-tripping representation exists. -/
theorem c7_counterexample :
    int_to_bytes (-128) = [0x80, 0xFF] ∧
    bytesToIntLE [0x80] = -128 ∧
    ([0x80] : ByteStr).length < (int_to_bytes (-128)).length := by
  refine ⟨by decide, by decide, by decide⟩

/-- C7, amended: for every integer `i`, `int_to_bytes i` is the
little-endian two's-complement byte string of width
`(i.bit_length() + 8) // 8` — a width that always suffices, so the
encoding round-trips back to `i` — but that width is not always the
minimal one (see the counterexample). -/
theorem c7_int_to_bytes_roundtrip (i : Int) :
    bytesToIntLE (int_to_bytes i) = i ∧
    (int_to_bytes i).length = (pyBitLength i + 8) / 8 := by
  constructor
  · exact bytesToIntLE_int_to_bytes i
  · unfold int_to_bytes intToBytesLE
    exact length_natToBytesLE _ _

/-! ## C1 — the type-encoder / `__reduce__` region of `_to_bytes` -/

/-- C1, code bug: when `type_encoders` is a non-empty mapping with no
entry matching the value's type, `_to_bytes` never reaches the
`__reduce__` catch-all.  The `elif self._type_encoders:` branch is taken,
its loop matches nothing, and the digest of the *empty* hash is
returned: no error is raised even when the value has no reduce form, and
a present reduce form is ignored — every such value of the same type
gets the same fingerprint.  With an empty mapping the claim's behaviour
does hold: the reduce form is fingerprinted, and `UnhashableTypeError`
is raised exactly when there is none. -/
theorem c1_encoder_fallthrough :
    -- non-empty, non-matching encoders; no reduce form: silent success on
    -- the empty digest instead of UnhashableTypeError
    (toBytes [(1, fun v => Option.some v)] 5
        (PyVal.obj 0 (strCodes "Conn") Option.none)
      = .ok (strCodes "Conn" ++ strCodes ":" ++ md5digest [])) ∧
    -- non-empty, non-matching encoders; reduce form present: the reduce
    -- form is bypassed, same empty digest
    (toBytes [(1, fun v => Option.some v)] 5
        (PyVal.obj 0 (strCodes "Conn") (Option.some [PyVal.pyint 7]))
      = .ok (strCodes "Conn" ++ strCodes ":" ++ md5digest [])) ∧
    -- empty encoders, no reduce form: UnhashableTypeError, as claimed
    (toBytes [] 5 (PyVal.obj 0 (strCodes "Conn") Option.none)
      = .error .unhashable) ∧
    -- empty encoders, reduce form present: fingerprint of the reduce
    -- form, as claimed
    (toBytes [] 5 (PyVal.obj 0 (strCodes "Conn") (Option.some [PyVal.pyint 7]))
      = .ok (strCodes "Conn" ++ strCodes ":" ++
          md5digest [strCodes "int" ++ strCodes ":" ++ int_to_bytes 7])) ∧
    -- the two behaviours differ: the bypassed fingerprint is not the
    -- reduce-form fingerprint
    (strCodes "Conn" ++ strCodes ":" ++ md5digest [])
      ≠ (strCodes "Conn" ++ strCodes ":" ++
          md5digest [strCodes "int" ++ strCodes ":" ++ int_to_bytes 7]) := by
  refine ⟨?_, ?_, ?_, ?_, by decide⟩
  · simp [toBytes, toBytesAux, encoderChunks, tyMatches, typeName]
  · simp [toBytes, toBytesAux, encoderChunks, tyMatches, typeName]
  · simp [toBytes, toBytesAux]
  · simp [toBytes, toBytesAux, hashItems, typeName]
    rfl

/-! ## C6 — boolean encoding -/

/-- C6, code bug: Python's `bool` is a subclass of `int`, so in
`_to_bytes` the `isinstance(obj, int)` arm captures booleans before the
`obj is True` / `obj is False` arms (which are unreachable).  `True`
is therefore encoded as `int_to_bytes(1) = b"\x01"` and `False` as
`int_to_bytes(0) = b"\x00"`, not as the claimed bytes `0x31` (`"1"`)
and `0x30` (`"0"`). -/
theorem c6_bool_encoding :
    (toBytes [] 1 (PyVal.pybool true)
      = .ok (strCodes "bool" ++ strCodes ":" ++ [0x01])) ∧
    (toBytes [] 1 (PyVal.pybool false)
      = .ok (strCodes "bool" ++ strCodes ":" ++ [0x00])) ∧
    ([0x01] : ByteStr) ≠ [0x31] ∧ ([0x00] : ByteStr) ≠ [0x30] := by
  refine ⟨?_, ?_, by decide, by decide⟩
  · simp [toBytes, toBytesAux, typeName]
    decide
  · simp [toBytes, toBytesAux, typeName]
    decide

/-! ## C2 — bound-method receiver exclusion -/

/-- C2, code bug: when the decorated callable is a bound method, neither
`inspect.signature(func)` nor the wrapper's `*args` contains the
implicit receiver, so `arg_pairs[1:]` drops the *first supplied
argument*, not the receiver.  For a bound method `m(x, y)`, the calls
`m(1, 5)` and `m(2, 5)` — differing only in their first argument —
produce the *same* cache key, contradicting the claim that the argument
key still depends on every supplied non-underscore argument.  (The
second half of the claim does hold: `m(1, 2)` and `m(2, 1)` still get
different keys, because the surviving second pair differs.) -/
theorem c2_bound_method_drops_first_argument :
    (make_value_key (strCodes "fk")
        ⟨[("x", .positionalOrKeyword), ("y", .positionalOrKeyword)], true⟩
        [] 1 [PyVal.pyint 1, PyVal.pyint 5] []
      = make_value_key (strCodes "fk")
        ⟨[("x", .positionalOrKeyword), ("y", .positionalOrKeyword)], true⟩
        [] 1 [PyVal.pyint 2, PyVal.pyint 5] []) ∧
    (make_value_key (strCodes "fk")
        ⟨[("x", .positionalOrKeyword), ("y", .positionalOrKeyword)], true⟩
        [] 1 [PyVal.pyint 1, PyVal.pyint 2] []
      ≠ make_value_key (strCodes "fk")
        ⟨[("x", .positionalOrKeyword), ("y", .positionalOrKeyword)], true⟩
        [] 1 [PyVal.pyint 2, PyVal.pyint 1] []) := by
  constructor
  · simp [make_value_key, posArgPairsFrom, hashArgPairs,
      get_positional_arg_name, startsWithUnderscore, argPairVal, toBytes,
      toBytesAux, hashItems, typeName]
  · simp [make_value_key, posArgPairsFrom, hashArgPairs,
      get_positional_arg_name, startsWithUnderscore, argPairVal, toBytes,
      toBytesAux, hashItems, typeName, md5digest, strCodes, utf8Encode,
      utf8Char, int_to_bytes, intToBytesLE, pyBitLength, natBitLength,
      natBitLengthAux, natToBytesLE]
    decide

/-! ## C8 — underscore exclusion -/

theorem hashArgPairs_cons_skip (enc : TypeEncoders) (depth : Nat)
    (n : String) (v : PyVal) (rest : List (Option String × PyVal))
    (hu : startsWithUnderscore n = true) :
    hashArgPairs enc depth ((Option.some n, v) :: rest)
      = hashArgPairs enc depth rest := by
  simp [hashArgPairs, hu]

/-- C8, confirmed: for any non-bound callable whose first parameter is a
named positional parameter with a leading-underscore name, the cache key
does not depend on the value supplied for that parameter — whether it is
passed positionally (first conjunct) or by keyword under its
underscore name (second conjunct).  The skipped pair never reaches the
hasher, so this holds for every pair of values `a1`, `a2`, every other
argument `b`, every type-encoder mapping and every recursion budget. -/
theorem c8_underscore_exclusion (f : PyFunc) (fk : ByteStr)
    (enc : TypeEncoders) (depth : Nat) (nx ny : String) (a1 a2 b : PyVal)
    (hb : f.isBoundMethod = false)
    (h0 : get_positional_arg_name f 0 = Option.some nx)
    (hu : startsWithUnderscore nx = true) :
    (make_value_key fk f enc depth [a1, b] []
      = make_value_key fk f enc depth [a2, b] []) ∧
    (make_value_key fk f enc depth [] [(nx, a1), (ny, b)]
      = make_value_key fk f enc depth [] [(nx, a2), (ny, b)]) := by
  constructor
  · unfold make_value_key
    simp only [posArgPairsFrom, List.map_nil, List.append_nil, hb,
      Bool.false_eq_true, if_false, h0]
    rw [hashArgPairs_cons_skip enc depth nx a1 _ hu,
      hashArgPairs_cons_skip enc depth nx a2 _ hu]
  · unfold make_value_key
    simp only [posArgPairsFrom, List.map_cons, List.map_nil,
      List.nil_append, hb, Bool.false_eq_true, if_false]
    rw [hashArgPairs_cons_skip enc depth nx a1 _ hu,
      hashArgPairs_cons_skip enc depth nx a2 _ hu]

/-- C8 witness: a concrete `f(_x, y)` — keys agree when `_x` is 1 or 2,
positionally and by keyword. -/
theorem c8_underscore_exclusion_witness :
    (make_value_key (strCodes "fk")
        ⟨[("_x", .positionalOrKeyword), ("y", .positionalOrKeyword)], false⟩
        [] 0 [PyVal.pyint 1, PyVal.pyint 3] []
      = make_value_key (strCodes "fk")
        ⟨[("_x", .positionalOrKeyword), ("y", .positionalOrKeyword)], false⟩
        [] 0 [PyVal.pyint 2, PyVal.pyint 3] []) ∧
    (make_value_key (strCodes "fk")
        ⟨[("_x", .positionalOrKeyword), ("y", .positionalOrKeyword)], false⟩
        [] 0 [] [("_x", PyVal.pyint 1), ("y", PyVal.pyint 3)]
      = make_value_key (strCodes "fk")
        ⟨[("_x", .positionalOrKeyword), ("y", .positionalOrKeyword)], false⟩
        [] 0 [] [("_x", PyVal.pyint 2), ("y", PyVal.pyint 3)]) :=
  c8_underscore_exclusion
    ⟨[("_x", .positionalOrKeyword), ("y", .positionalOrKeyword)], false⟩
    (strCodes "fk") [] 0 "_x" "y" (PyVal.pyint 1) (PyVal.pyint 2)
    (PyVal.pyint 3) rfl rfl rfl

/-! ## C4 — the stored-value envelope -/

/-- C4, counterexample: `StoredObject.new` does not accept "any numeric"
`expires_in` — a float raises `TypeError` even though it is a positive
number of seconds, so the envelope errors on an input whose resulting
duration would be positive, contradicting "errors exactly when the
resulting duration is <= 0". -/
theorem c4_counterexample :
    StoredObject.new Nat 0 (.efloat 2) 0 = .error .typeError ∧
    (0 : ℚ) < 2 := by
  exact ⟨rfl, by norm_num⟩

/-- C4, amended: `StoredObject.new(data, expires_in)` yields an envelope
with no expiry when `expires_in` is null; converts an *integer*
`expires_in` to a duration in seconds, raising `TypeError` on any other
non-duration value (e.g. a float); raises `ValueError` when the duration
is ≤ 0; and otherwise sets `expires_at = now + duration`, strictly
greater than the creation time.  `expired` is true iff `expires_at` is
present and `now` has reached it. -/
theorem c4_envelope (d : ByteStr) (now : Int) :
    (StoredObject.new ByteStr d .enone now
      = .ok { expires_at := Option.none, data := d }) ∧
    (∀ n : Int, 0 < n → StoredObject.new ByteStr d (.eint n) now
      = .ok { expires_at := Option.some (now + n), data := d }) ∧
    (∀ n : Int, n ≤ 0 → StoredObject.new ByteStr d (.eint n) now
      = .error .valueError) ∧
    (∀ s : Int, 0 < s → StoredObject.new ByteStr d (.etd s) now
      = .ok { expires_at := Option.some (now + s), data := d }) ∧
    (∀ s : Int, s ≤ 0 → StoredObject.new ByteStr d (.etd s) now
      = .error .valueError) ∧
    (∀ q : ℚ, StoredObject.new ByteStr d (.efloat q) now
      = .error .typeError) ∧
    (∀ e so, StoredObject.new ByteStr d e now = .ok so →
      ∀ te, so.expires_at = Option.some te → now < te) ∧
    (∀ so : StoredObject ByteStr, ∀ t : Int,
      so.expired t = true ↔ ∃ te, so.expires_at = Option.some te ∧ te ≤ t) := by
  refine ⟨rfl, ?_, ?_, ?_, ?_, fun q => rfl, ?_, ?_⟩
  · intro n hn
    simp only [StoredObject.new, pure_bind]
    rw [dif_pos (by simp)]
    rw [if_neg (by simp; omega)]
    simp only [Option.get_some]
    rw [if_pos (by omega)]
    rfl
  · intro n hn
    simp only [StoredObject.new, pure_bind]
    rw [dif_pos (by simp)]
    rw [if_pos (by simpa using hn)]
    rfl
  · intro s hs
    simp only [StoredObject.new, pure_bind]
    rw [dif_pos (by simp)]
    rw [if_neg (by simp; omega)]
    simp only [Option.get_some]
    rw [if_pos (by omega)]
    rfl
  · intro s hs
    simp only [StoredObject.new, pure_bind]
    rw [dif_pos (by simp)]
    rw [if_pos (by simpa using hs)]
    rfl
  · intro e so hok te hat
    cases e with
    | enone =>
      simp only [StoredObject.new, pure_bind] at hok
      rw [dif_neg (by simp)] at hok
      simp only [pure, Except.pure, Except.ok.injEq] at hok
      rw [← hok] at hat
      simp at hat
    | eint n =>
      by_cases hn : n ≤ 0
      · simp only [StoredObject.new, pure_bind] at hok
        rw [dif_pos (by simp), if_pos (by simpa using hn)] at hok
        simp [throw, throwThe, MonadExceptOf.throw] at hok
      · simp only [StoredObject.new, pure_bind] at hok
        rw [dif_pos (by simp), if_neg (by simpa using hn)] at hok
        simp only [Option.get_some] at hok
        rw [if_pos (by omega)] at hok
        simp only [pure, Except.pure, Except.ok.injEq] at hok
        rw [← hok] at hat
        simp only [Option.some.injEq] at hat
        omega
    | etd s =>
      by_cases hs : s ≤ 0
      · simp only [StoredObject.new, pure_bind] at hok
        rw [dif_pos (by simp), if_pos (by simpa using hs)] at hok
        simp [throw, throwThe, MonadExceptOf.throw] at hok
      · simp only [StoredObject.new, pure_bind] at hok
        rw [dif_pos (by simp), if_neg (by simpa using hs)] at hok
        simp only [Option.get_some] at hok
        rw [if_pos (by omega)] at hok
        simp only [pure, Except.pure, Except.ok.injEq] at hok
        rw [← hok] at hat
        simp only [Option.some.injEq] at hat
        omega
    | efloat q =>
      simp [StoredObject.new, Bind.bind, Except.bind, throw, throwThe,
        MonadExceptOf.throw] at hok
  · intro so t
    cases so with
    | mk ea dt =>
      cases ea with
      | none => simp [StoredObject.expired]
      | some te => simp [StoredObject.expired]

/-- C4 witness: the amended behaviour at concrete inputs (`now = 100`,
data `[7]`): no expiry for null, `expires_at = 105` for five integer
seconds, `ValueError` for zero, `TypeError` for the float `3/2`, and
expiry exactly from time 105 on. -/
theorem c4_envelope_witness :
    (StoredObject.new ByteStr [7] .enone 100
      = .ok { expires_at := Option.none, data := [7] }) ∧
    (StoredObject.new ByteStr [7] (.eint 5) 100
      = .ok { expires_at := Option.some 105, data := [7] }) ∧
    (StoredObject.new ByteStr [7] (.eint 0) 100 = .error .valueError) ∧
    (StoredObject.new ByteStr [7] (.etd 5) 100
      = .ok { expires_at := Option.some 105, data := [7] }) ∧
    (StoredObject.new ByteStr [7] (.efloat (3 / 2)) 100
      = .error .typeError) ∧
    (StoredObject.expired { expires_at := Option.some 105, data := [7] } 105
        = true ↔
      ∃ te, (Option.some (105 : Int) = Option.some te ∧ te ≤ 105)) := by
  have h := c4_envelope [7] 100
  refine ⟨h.1, ?_, h.2.2.1 0 (by norm_num), ?_, h.2.2.2.2.2.1 (3 / 2), ?_⟩
  · have := h.2.1 5 (by norm_num)
    simpa using this
  · have := h.2.2.2.1 5 (by norm_num)
    simpa using this
  · exact h.2.2.2.2.2.2.2 { expires_at := Option.some 105, data := [7] } 105

/-! ## C3 / C10 — storage round-trips -/

/-- Any successful envelope holds exactly the data it was built from, and
its expiry time, when present, lies strictly after creation. -/
theorem StoredObject.new_shape (T : Type) (d : T) (e : ExpiresIn)
    (now : Int) (so : StoredObject T)
    (h : StoredObject.new T d e now = .ok so) :
    so.data = d ∧ ∀ te, so.expires_at = Option.some te → now < te := by
  cases e with
  | enone =>
    simp only [StoredObject.new, pure_bind] at h
    rw [dif_neg (by simp)] at h
    simp only [pure, Except.pure, Except.ok.injEq] at h
    rw [← h]
    exact ⟨rfl, fun te hte => by simp at hte⟩
  | eint n =>
    by_cases hn : n ≤ 0
    · simp only [StoredObject.new, pure_bind] at h
      rw [dif_pos (by simp), if_pos (by simpa using hn)] at h
      simp [throw, throwThe, MonadExceptOf.throw] at h
    · simp only [StoredObject.new, pure_bind] at h
      rw [dif_pos (by simp), if_neg (by simpa using hn)] at h
      simp only [Option.get_some] at h
      rw [if_pos (by omega)] at h
      simp only [pure, Except.pure, Except.ok.injEq] at h
      rw [← h]
      refine ⟨rfl, fun te hte => ?_⟩
      simp only [Option.some.injEq] at hte
      omega
  | etd s =>
    by_cases hs : s ≤ 0
    · simp only [StoredObject.new, pure_bind] at h
      rw [dif_pos (by simp), if_pos (by simpa using hs)] at h
      simp [throw, throwThe, MonadExceptOf.throw] at h
    · simp only [StoredObject.new, pure_bind] at h
      rw [dif_pos (by simp), if_neg (by simpa using hs)] at h
      simp only [Option.get_some] at h
      rw [if_pos (by omega)] at h
      simp only [pure, Except.pure, Except.ok.injEq] at h
      rw [← h]
      refine ⟨rfl, fun te hte => ?_⟩
      simp only [Option.some.injEq] at hte
      omega
  | efloat q =>
    simp [StoredObject.new, Bind.bind, Except.bind, throw, throwThe,
      MonadExceptOf.throw] at h

theorem storeFind_insert (m : MemStore) (k : String)
    (so : StoredObject ByteStr) :
    storeFind (storeInsert m k so) k = Option.some so := by
  simp [storeFind, storeInsert, List.find?]

theorem memSet_ok (m : MemStore) (k : String) (v : StrOrBytes)
    (e : ExpiresIn) (t0 : Int) (m' : MemStore)
    (so : StoredObject ByteStr)
    (hnew : StoredObject.new ByteStr v.toBytes e t0 = .ok so)
    (hset : MemoryStorage.set m k v e t0 = .ok m') :
    m' = storeInsert m k so := by
  simp only [MemoryStorage.set, hnew, Bind.bind, Except.bind, pure,
    Except.pure, Except.ok.injEq] at hset
  exact hset.symm

/-- C3, confirmed: on `MemoryStorage` (the async variant is textually
identical modulo the lock), after a successful `set(K, v, t)` producing
envelope `so`, `get(K)` at any time at which the envelope is not expired
returns exactly the stored bytes and leaves the store unchanged; at any
time at which it is expired, `get(K)` returns `None` *and* removes the
underlying record; and the envelope counts as expired from the moment
`now ≥ expires_at` on — so expiry never yields stale bytes. -/
theorem c3_memory_roundtrip (m : MemStore) (k : String) (v : StrOrBytes)
    (e : ExpiresIn) (t0 : Int) (m' : MemStore)
    (so : StoredObject ByteStr)
    (hnew : StoredObject.new ByteStr v.toBytes e t0 = .ok so)
    (hset : MemoryStorage.set m k v e t0 = .ok m') :
    (∀ t1, so.expired t1 = false →
      MemoryStorage.get m' k t1 = (Option.some v.toBytes, m')) ∧
    (∀ t1, so.expired t1 = true →
      MemoryStorage.get m' k t1 = (Option.none, storeRemove m' k)) ∧
    (∀ t1 te, so.expires_at = Option.some te → te ≤ t1 →
      so.expired t1 = true) := by
  obtain ⟨hdata, _⟩ := StoredObject.new_shape ByteStr v.toBytes e t0 so hnew
  have hm' := memSet_ok m k v e t0 m' so hnew hset
  subst hm'
  refine ⟨?_, ?_, ?_⟩
  · intro t1 hne
    simp [MemoryStorage.get, storeFind_insert, hne, hdata]
  · intro t1 hex
    simp [MemoryStorage.get, storeFind_insert, hex]
  · intro t1 te hat hle
    simp [StoredObject.expired, hat]
    omega

/-- C3 witness: `set` at time 0 with a ten-second TTL; `get` at time 5
returns the bytes, `get` at time 10 returns `None` and empties the
store; the envelope is expired at time 10. -/
theorem c3_memory_roundtrip_witness :
    (MemoryStorage.get
        [("k", { expires_at := Option.some 10, data := [1, 2] })] "k" 5
      = (Option.some [1, 2],
          [("k", { expires_at := Option.some 10, data := [1, 2] })])) ∧
    (MemoryStorage.get
        [("k", { expires_at := Option.some 10, data := [1, 2] })] "k" 10
      = (Option.none, [])) ∧
    StoredObject.expired
        { expires_at := Option.some (10 : Int), data := ([1, 2] : ByteStr) }
        10 = true := by
  have h := c3_memory_roundtrip [] "k" (.ofBytes [1, 2]) (.eint 10) 0
    [("k", { expires_at := Option.some 10, data := [1, 2] })]
    { expires_at := Option.some 10, data := [1, 2] } rfl rfl
  exact ⟨h.1 5 rfl, h.2.1 10 rfl, h.2.2 10 10 rfl (by omega)⟩

theorem fileSet_ok (fs : MemStore) (k : String) (v : StrOrBytes)
    (e : ExpiresIn) (t0 : Int) (fs' : MemStore)
    (so : StoredObject ByteStr)
    (hnew : StoredObject.new ByteStr v.toBytes e t0 = .ok so)
    (hset : FileStorage.set fs k v e t0 = .ok fs') :
    fs' = storeInsert fs (safeFileName k) so := by
  simp only [FileStorage.set, hnew, Bind.bind, Except.bind, pure,
    Except.pure, Except.ok.injEq] at hset
  exact hset.symm

/-- C10, confirmed: although the `Storage` contract types values as
`bytes`, both `MemoryStorage.set` and `FileStorage.set` accept a `str`
and store `value.encode("utf-8")`: a successful `set` of the string with
code points `cps` followed by a `get` at a time at which the envelope is
not expired returns exactly `utf8Encode cps`. -/
theorem c10_str_accepted (cps : List Nat) (k : String) (e : ExpiresIn)
    (t0 : Int) (so : StoredObject ByteStr)
    (hnew : StoredObject.new ByteStr (utf8Encode cps) e t0 = .ok so) :
    (∀ m m', MemoryStorage.set m k (.ofStr cps) e t0 = .ok m' →
      ∀ t1, so.expired t1 = false →
        (MemoryStorage.get m' k t1).1 = Option.some (utf8Encode cps)) ∧
    (∀ fs fs', FileStorage.set fs k (.ofStr cps) e t0 = .ok fs' →
      ∀ t1, so.expired t1 = false →
        (FileStorage.get fs' k t1).1 = Option.some (utf8Encode cps)) := by
  obtain ⟨hdata, _⟩ := StoredObject.new_shape ByteStr
    (StrOrBytes.toBytes (.ofStr cps)) e t0 so hnew
  constructor
  · intro m m' hset t1 hne
    have hm' := memSet_ok m k (.ofStr cps) e t0 m' so hnew hset
    subst hm'
    simp [MemoryStorage.get, storeFind_insert, hne, hdata,
      StrOrBytes.toBytes]
  · intro fs fs' hset t1 hne
    have hfs' := fileSet_ok fs k (.ofStr cps) e t0 fs' so hnew hset
    subst hfs'
    simp [FileStorage.get, storeFind_insert, hne, hdata,
      StrOrBytes.toBytes]

/-- C10 witness: storing the string "hé" (code points 104, 233) in either
storage and reading it back yields its UTF-8 bytes `68 C3 A9`. -/
theorem c10_str_accepted_witness :
    ((MemoryStorage.get
        [("k", { expires_at := Option.none, data := [104, 195, 169] })]
        "k" 5).1 = Option.some [104, 195, 169]) ∧
    ((FileStorage.get
        [("k", { expires_at := Option.none, data := [104, 195, 169] })]
        "k" 5).1 = Option.some [104, 195, 169]) := by
  have h := c10_str_accepted [104, 233] "k" .enone 0
    { expires_at := Option.none, data := [104, 195, 169] } rfl
  exact ⟨h.1 [] _ rfl 5 rfl, h.2 [] _ rfl 5 rfl⟩

/-! ## C5 — Mongo auto-reconnect retry -/

theorem retryFrom_ok (mf : Nat) (cap base : ℚ)
    (call : Nat → Except MongoErr α) (f : Nat) (a : α)
    (h : call f = .ok a) :
    retryFrom mf cap base call f = ⟨.ok a, f + 1, []⟩ := by
  rw [retryFrom.eq_def, h]

theorem retryFrom_opFail (mf : Nat) (cap base : ℚ)
    (call : Nat → Except MongoErr α) (f : Nat)
    (h : call f = .error .operationFailure) :
    retryFrom mf cap base call f = ⟨.error .operationFailure, f + 1, []⟩ := by
  rw [retryFrom.eq_def, h]

theorem retryFrom_autoRec_last (mf : Nat) (cap base : ℚ)
    (call : Nat → Except MongoErr α) (f : Nat)
    (h : call f = .error .autoReconnect) (hf : f + 1 > mf) :
    retryFrom mf cap base call f = ⟨.error .autoReconnect, f + 1, []⟩ := by
  rw [retryFrom.eq_def, h]
  simp [hf]

theorem retryFrom_autoRec_step (mf : Nat) (cap base : ℚ)
    (call : Nat → Except MongoErr α) (f : Nat)
    (h : call f = .error .autoReconnect) (hf : ¬ f + 1 > mf) :
    retryFrom mf cap base call f =
      ⟨(retryFrom mf cap base call (f + 1)).result,
        (retryFrom mf cap base call (f + 1)).attempts,
        (if min cap (base * 2 ^ (f + 1)) > 0
          then [min cap (base * 2 ^ (f + 1))] else [])
          ++ (retryFrom mf cap base call (f + 1)).sleeps⟩ := by
  rw [retryFrom.eq_def, h]
  simp [hf]

theorem retryFrom_attempts_le (mf : Nat) (cap base : ℚ)
    (call : Nat → Except MongoErr α) :
    ∀ d f, mf - f = d → f ≤ mf →
      (retryFrom mf cap base call f).attempts ≤ mf + 1 := by
  intro d
  induction d with
  | zero =>
    intro f hd hf
    match hc : call f with
    | .ok a =>
      rw [retryFrom_ok mf cap base call f a hc]
      show f + 1 ≤ mf + 1
      omega
    | .error .operationFailure =>
      rw [retryFrom_opFail mf cap base call f hc]
      show f + 1 ≤ mf + 1
      omega
    | .error .autoReconnect =>
      rw [retryFrom_autoRec_last mf cap base call f hc (by omega)]
      show f + 1 ≤ mf + 1
      omega
  | succ d ih =>
    intro f hd hf
    match hc : call f with
    | .ok a =>
      rw [retryFrom_ok mf cap base call f a hc]
      show f + 1 ≤ mf + 1
      omega
    | .error .operationFailure =>
      rw [retryFrom_opFail mf cap base call f hc]
      show f + 1 ≤ mf + 1
      omega
    | .error .autoReconnect =>
      rw [retryFrom_autoRec_step mf cap base call f hc (by omega)]
      exact ih (f + 1) (by omega) (by omega)

theorem retryFrom_allFail (mf : Nat) (cap base : ℚ)
    (call : Nat → Except MongoErr α)
    (hbase : 0 < base) (hcap : 0 < cap) :
    ∀ d f, mf - f = d → f ≤ mf →
      (∀ k, f ≤ k → k ≤ mf → call k = .error .autoReconnect) →
      retryFrom mf cap base call f =
        ⟨.error .autoReconnect, mf + 1,
          (List.range (mf - f)).map
            (fun j => min cap (base * 2 ^ (f + 1 + j)))⟩ := by
  intro d
  induction d with
  | zero =>
    intro f hd hf hfail
    have hfm : f = mf := by omega
    rw [retryFrom_autoRec_last mf cap base call f
      (hfail f le_rfl hf) (by omega)]
    simp [hd, hfm]
  | succ d ih =>
    intro f hd hf hfail
    rw [retryFrom_autoRec_step mf cap base call f
      (hfail f le_rfl hf) (by omega)]
    rw [ih (f + 1) (by omega) (by omega)
      (fun k hk1 hk2 => hfail k (by omega) hk2)]
    have hpos : (0 : ℚ) < min cap (base * 2 ^ (f + 1)) :=
      lt_min hcap (by positivity)
    rw [if_pos hpos]
    refine congrArg (fun s => RetryTrace.mk (.error .autoReconnect) (mf + 1) s) ?_
    have hr : mf - f = (mf - (f + 1)) + 1 := by omega
    rw [hr, List.range_succ_eq_map, List.map_cons, List.map_map]
    simp only [List.cons_append, List.nil_append, Nat.add_zero]
    refine congrArg₂ List.cons rfl ?_
    refine List.map_congr_left ?_
    intro j hj
    have : f + 1 + 1 + j = f + 1 + Nat.succ j := by omega
    simp [Function.comp, this]

theorem retryFrom_skip_failures (mf : Nat) (cap base : ℚ)
    (call : Nat → Except MongoErr α) (j : Nat) (hj : j ≤ mf) :
    ∀ d f, j - f = d → f ≤ j →
      (∀ k, f ≤ k → k < j → call k = .error .autoReconnect) →
      (retryFrom mf cap base call f).result
          = (retryFrom mf cap base call j).result ∧
      (retryFrom mf cap base call f).attempts
          = (retryFrom mf cap base call j).attempts := by
  intro d
  induction d with
  | zero =>
    intro f hd hf _
    have hfj : f = j := by omega
    exact ⟨by rw [hfj], by rw [hfj]⟩
  | succ d ih =>
    intro f hd hf hfail
    rw [retryFrom_autoRec_step mf cap base call f
      (hfail f le_rfl (by omega)) (by omega)]
    exact ih (f + 1) (by omega) (by omega)
      (fun k hk1 hk2 => hfail k (by omega) hk2)

/-- C5, counterexample: with `max_failures = 1` and a call that always
raises `AutoReconnect`, the operation is attempted 2 times — more than
the claimed "up to max_failures times in total" — before the error
propagates. -/
theorem c5_counterexample :
    (retryForAutoReconnect 1 10 1
        (fun _ => (.error .autoReconnect : Except MongoErr Nat))).attempts
      = 2 ∧
    (retryForAutoReconnect 1 10 1
        (fun _ => (.error .autoReconnect : Except MongoErr Nat))).result
      = .error .autoReconnect ∧
    1 < 2 := by
  have h := retryFrom_allFail 1 10 1
    (fun _ => (.error .autoReconnect : Except MongoErr Nat))
    (by norm_num) (by norm_num) 1 0 rfl (by omega) (fun k _ _ => rfl)
  rw [retryForAutoReconnect, h]
  exact ⟨rfl, rfl, by omega⟩

/-- C5, amended: every Mongo operation is retried on `AutoReconnect`
with `sleep = min(max_backoff, base_backoff · 2^failures)` between
consecutive failures (`failures` counted after incrementing), the
operation is attempted up to `max_failures + 1` times in total — the
error propagates once the failure count *exceeds* `max_failures` — and
a non-auto-reconnect error propagates immediately after a single
attempt, with no sleeps. -/
theorem c5_retry (mf : Nat) (cap base : ℚ)
    (call : Nat → Except MongoErr α) :
    ((retryForAutoReconnect mf cap base call).attempts ≤ mf + 1) ∧
    (0 < base → 0 < cap → (∀ k, k ≤ mf → call k = .error .autoReconnect) →
      retryForAutoReconnect mf cap base call =
        ⟨.error .autoReconnect, mf + 1,
          (List.range mf).map (fun j => min cap (base * 2 ^ (j + 1)))⟩) ∧
    (∀ j a, j ≤ mf → (∀ k, k < j → call k = .error .autoReconnect) →
      call j = .ok a →
      (retryForAutoReconnect mf cap base call).result = .ok a ∧
      (retryForAutoReconnect mf cap base call).attempts = j + 1) ∧
    (call 0 = .error .operationFailure →
      retryForAutoReconnect mf cap base call =
        ⟨.error .operationFailure, 1, []⟩) := by
  refine ⟨?_, ?_, ?_, ?_⟩
  · exact retryFrom_attempts_le mf cap base call mf 0 (by omega) (by omega)
  · intro hbase hcap hfail
    rw [retryForAutoReconnect,
      retryFrom_allFail mf cap base call hbase hcap mf 0 (by omega)
        (by omega) (fun k _ hk => hfail k hk)]
    simp only [Nat.sub_zero]
    congr 1
    apply List.map_congr_left
    intro j hj
    have hji : 0 + 1 + j = j + 1 := by omega
    rw [hji]
  · intro j a hj hfail hok
    have hskip := retryFrom_skip_failures mf cap base call j hj j 0
      (by omega) (by omega) (fun k _ hk => hfail k hk)
    rw [retryForAutoReconnect]
    rw [hskip.1, hskip.2, retryFrom_ok mf cap base call j a hok]
    exact ⟨rfl, rfl⟩
  · intro hop
    rw [retryForAutoReconnect, retryFrom_opFail mf cap base call 0 hop]

/-- C5 witness: the amended behaviour at `max_failures = 1`,
`max_backoff = 10`, `base_backoff = 1`: an always-failing call is
attempted twice with one sleep of `min 10 2`; a call succeeding on its
second attempt returns that success after 2 attempts; an
`OperationFailure` on the first attempt propagates with a single
attempt and no sleeps. -/
theorem c5_retry_witness :
    (retryForAutoReconnect 1 10 1
        (fun _ => (.error .autoReconnect : Except MongoErr Nat)) =
      ⟨.error .autoReconnect, 2,
        (List.range 1).map (fun j => min 10 (1 * 2 ^ (j + 1)))⟩) ∧
    ((retryForAutoReconnect 1 10 1
        (fun k => if k = 0 then (.error .autoReconnect : Except MongoErr Nat)
          else .ok 42)).result = .ok 42 ∧
      (retryForAutoReconnect 1 10 1
        (fun k => if k = 0 then (.error .autoReconnect : Except MongoErr Nat)
          else .ok 42)).attempts = 2) ∧
    (retryForAutoReconnect 1 10 1
        (fun _ => (.error .operationFailure : Except MongoErr Nat)) =
      ⟨.error .operationFailure, 1, []⟩) ∧
    (retryForAutoReconnect 1 10 1
        (fun _ => (.error .autoReconnect : Except MongoErr Nat))).attempts
      ≤ 2 := by
  refine ⟨?_, ?_, ?_, ?_⟩
  · exact (c5_retry 1 10 1 _).2.1 (by norm_num) (by norm_num)
      (fun k _ => rfl)
  · exact (c5_retry 1 10 1 _).2.2.1 1 42 le_rfl
      (fun k hk => by
        have hk0 : k = 0 := by omega
        subst hk0
        rfl)
      rfl
  · exact (c5_retry 1 10 1 _).2.2.2 rfl
  · exact (c5_retry 1 10 1 _).1

/-! ## C9 — cycle tolerance and the hash-stack discipline -/

theorem lookup_mem_keys (heap : Heap) (objId : Nat) (node : HNode)
    (h : heap.lookup objId = Option.some node) :
    objId ∈ heap.map Prod.fst := by
  induction heap with
  | nil => simp [List.lookup] at h
  | cons p rest ih =>
    rw [List.lookup] at h
    by_cases hbeq : objId == p.1
    · simp only [List.map_cons, List.mem_cons]
      exact Or.inl (by simpa using hbeq)
    · simp only [Bool.not_eq_true] at hbeq
      rw [hbeq] at h
      simp only [List.map_cons, List.mem_cons]
      exact Or.inr (ih h)

theorem freshCount_push (heap : Heap) (stack : List Nat) (objId : Nat)
    (hmem : objId ∈ heap.map Prod.fst) (hstk : objId ∉ stack) :
    freshCount heap (stack ++ [objId]) < freshCount heap stack := by
  unfold freshCount
  have h1 : (stack ++ [objId]).toFinset = insert objId stack.toFinset := by
    rw [List.toFinset_append]
    simp [Finset.union_comm, Finset.insert_eq]
  rw [h1]
  have h2 : (heap.map Prod.fst).toFinset \ insert objId stack.toFinset
      = ((heap.map Prod.fst).toFinset \ stack.toFinset).erase objId := by
    ext x
    simp only [Finset.mem_sdiff, Finset.mem_erase, Finset.mem_insert]
    tauto
  rw [h2]
  apply Finset.card_erase_lt_of_mem
  simp only [Finset.mem_sdiff, List.mem_toFinset]
  exact ⟨hmem, hstk⟩

/-- The `finally: hash_stacks.current.pop()` discipline, globally: every
call to `to_bytes` leaves the hash stack exactly as it found it, both
when it returns a byte string and when an exception propagates. -/
theorem hash_stack_restored (heap : Heap) (fuel : Nat) :
    (∀ objId stack, outcomeStack (hashObj heap fuel objId stack) = stack) ∧
    (∀ ids stack, outcomeStack (hashIds heap fuel ids stack) = stack) := by
  induction fuel with
  | zero =>
    have hobj : ∀ objId stack,
        outcomeStack (hashObj heap 0 objId stack) = stack := by
      intro objId stack
      simp [hashObj, outcomeStack]
    refine ⟨hobj, ?_⟩
    intro ids
    induction ids with
    | nil => intro stack; simp [hashIds, outcomeStack]
    | cons i rest ihl =>
      intro stack
      simp [hashIds, hashObj, outcomeStack]
  | succ f ih =>
    have hobj : ∀ objId stack,
        outcomeStack (hashObj heap (f + 1) objId stack) = stack := by
      intro objId stack
      by_cases hmem : objId ∈ stack
      · simp [hashObj, hmem, outcomeStack]
      · cases hlk : heap.lookup objId with
        | none => simp [hashObj, hmem, hlk, outcomeStack]
        | some node =>
          cases node with
          | hbytes b =>
            simp [hashObj, hmem, hlk, outcomeStack, List.dropLast_concat]
          | hstr cps =>
            simp [hashObj, hmem, hlk, outcomeStack, List.dropLast_concat]
          | hint i =>
            simp [hashObj, hmem, hlk, outcomeStack, List.dropLast_concat]
          | hbool b =>
            simp [hashObj, hmem, hlk, outcomeStack, List.dropLast_concat]
          | hnone =>
            simp [hashObj, hmem, hlk, outcomeStack, List.dropLast_concat]
          | hfail =>
            simp [hashObj, hmem, hlk, outcomeStack, List.dropLast_concat]
          | hlist ids =>
            have hrest := ih.2 ids (stack ++ [objId])
            cases hres : hashIds heap f ids (stack ++ [objId]) with
            | ok pr =>
              obtain ⟨cs, s⟩ := pr
              rw [hres] at hrest
              simp only [outcomeStack] at hrest
              simp [hashObj, hmem, hlk, hres, outcomeStack, hrest,
                List.dropLast_concat]
            | error e =>
              obtain ⟨er, s⟩ := e
              rw [hres] at hrest
              simp only [outcomeStack] at hrest
              simp [hashObj, hmem, hlk, hres, outcomeStack, hrest,
                List.dropLast_concat]
          | htuple ids =>
            have hrest := ih.2 ids (stack ++ [objId])
            cases hres : hashIds heap f ids (stack ++ [objId]) with
            | ok pr =>
              obtain ⟨cs, s⟩ := pr
              rw [hres] at hrest
              simp only [outcomeStack] at hrest
              simp [hashObj, hmem, hlk, hres, outcomeStack, hrest,
                List.dropLast_concat]
            | error e =>
              obtain ⟨er, s⟩ := e
              rw [hres] at hrest
              simp only [outcomeStack] at hrest
              simp [hashObj, hmem, hlk, hres, outcomeStack, hrest,
                List.dropLast_concat]
    refine ⟨hobj, ?_⟩
    intro ids
    induction ids with
    | nil => intro stack; simp [hashIds, outcomeStack]
    | cons i rest ihl =>
      intro stack
      have h1 := hobj i stack
      cases hres : hashObj heap (f + 1) i stack with
      | error e =>
        obtain ⟨er, s⟩ := e
        rw [hres] at h1
        simp only [outcomeStack] at h1
        simp [hashIds, hres, outcomeStack, h1]
      | ok pr =>
        obtain ⟨b, s⟩ := pr
        rw [hres] at h1
        simp only [outcomeStack] at h1
        subst h1
        have h2 := ihl s
        cases hres2 : hashIds heap (f + 1) rest s with
        | error e2 =>
          obtain ⟨er2, s2⟩ := e2
          rw [hres2] at h2
          simp only [outcomeStack] at h2
          simp [hashIds, hres, hres2, outcomeStack, h2]
        | ok pr2 =>
          obtain ⟨bs, s2⟩ := pr2
          rw [hres2] at h2
          simp only [outcomeStack] at h2
          simp [hashIds, hres, hres2, outcomeStack, h2]

/-- Fuel exceeding the number of heap identities not already on the
stack is never exhausted: the cycle check bounds the stack depth, which
is what makes fingerprinting self-referential containers terminate. -/
theorem hash_no_fuel_exhaustion (heap : Heap) (fuel : Nat) :
    (∀ objId stack, freshCount heap stack < fuel →
      isOutOfFuel (hashObj heap fuel objId stack) = false) ∧
    (∀ ids stack, freshCount heap stack < fuel →
      isOutOfFuel (hashIds heap fuel ids stack) = false) := by
  induction fuel with
  | zero =>
    constructor
    · intro objId stack h
      exact absurd h (Nat.not_lt_zero _)
    · intro ids stack h
      exact absurd h (Nat.not_lt_zero _)
  | succ f ih =>
    have hobj : ∀ objId stack, freshCount heap stack < f + 1 →
        isOutOfFuel (hashObj heap (f + 1) objId stack) = false := by
      intro objId stack hcnt
      by_cases hmem : objId ∈ stack
      · simp [hashObj, hmem, isOutOfFuel]
      · cases hlk : heap.lookup objId with
        | none => simp [hashObj, hmem, hlk, isOutOfFuel]
        | some node =>
          have hfresh : freshCount heap (stack ++ [objId]) < f := by
            have := freshCount_push heap stack objId
              (lookup_mem_keys heap objId node hlk) hmem
            omega
          cases node with
          | hbytes b => simp [hashObj, hmem, hlk, isOutOfFuel]
          | hstr cps => simp [hashObj, hmem, hlk, isOutOfFuel]
          | hint i => simp [hashObj, hmem, hlk, isOutOfFuel]
          | hbool b => simp [hashObj, hmem, hlk, isOutOfFuel]
          | hnone => simp [hashObj, hmem, hlk, isOutOfFuel]
          | hfail => simp [hashObj, hmem, hlk, isOutOfFuel]
          | hlist ids =>
            have hrec := ih.2 ids (stack ++ [objId]) hfresh
            cases hres : hashIds heap f ids (stack ++ [objId]) with
            | ok pr =>
              obtain ⟨cs, s⟩ := pr
              simp [hashObj, hmem, hlk, hres, isOutOfFuel]
            | error e =>
              obtain ⟨er, s⟩ := e
              rw [hres] at hrec
              cases er with
              | outOfFuel => simp [isOutOfFuel] at hrec
              | unhashable => simp [hashObj, hmem, hlk, hres, isOutOfFuel]
              | danglingId => simp [hashObj, hmem, hlk, hres, isOutOfFuel]
          | htuple ids =>
            have hrec := ih.2 ids (stack ++ [objId]) hfresh
            cases hres : hashIds heap f ids (stack ++ [objId]) with
            | ok pr =>
              obtain ⟨cs, s⟩ := pr
              simp [hashObj, hmem, hlk, hres, isOutOfFuel]
            | error e =>
              obtain ⟨er, s⟩ := e
              rw [hres] at hrec
              cases er with
              | outOfFuel => simp [isOutOfFuel] at hrec
              | unhashable => simp [hashObj, hmem, hlk, hres, isOutOfFuel]
              | danglingId => simp [hashObj, hmem, hlk, hres, isOutOfFuel]
    refine ⟨hobj, ?_⟩
    intro ids
    induction ids with
    | nil =>
      intro stack h
      simp [hashIds, isOutOfFuel]
    | cons i rest ihl =>
      intro stack hcnt
      have h1 := hobj i stack hcnt
      have hstk := (hash_stack_restored heap (f + 1)).1 i stack
      cases hres : hashObj heap (f + 1) i stack with
      | error e =>
        obtain ⟨er, s⟩ := e
        rw [hres] at h1
        cases er with
        | outOfFuel => simp [isOutOfFuel] at h1
        | unhashable => simp [hashIds, hres, isOutOfFuel]
        | danglingId => simp [hashIds, hres, isOutOfFuel]
      | ok pr =>
        obtain ⟨b, s⟩ := pr
        rw [hres] at hstk
        simp only [outcomeStack] at hstk
        subst hstk
        have h2 := ihl s hcnt
        cases hres2 : hashIds heap (f + 1) rest s with
        | ok pr2 =>
          obtain ⟨bs, s2⟩ := pr2
          simp [hashIds, hres, hres2, isOutOfFuel]
        | error e2 =>
          obtain ⟨er2, s2⟩ := e2
          rw [hres2] at h2
          cases er2 with
          | outOfFuel => simp [isOutOfFuel] at h2
          | unhashable => simp [hashIds, hres, hres2, isOutOfFuel]
          | danglingId => simp [hashIds, hres, hres2, isOutOfFuel]

/-- C9, confirmed: fingerprinting is cycle-tolerant.  (i) A value whose
identity is already on the current hash stack hashes to the fixed cycle
placeholder, with the stack untouched.  (ii) Every `to_bytes` call pops
what it pushed on every exit path — success or propagating exception —
leaving the hash stack unchanged overall.  (iii) Fuel exceeding the
number of heap identities not yet on the stack is never exhausted, i.e.
the recursion that the cycle check cuts off is bounded: fingerprinting
terminates on every heap, self-referential ones included.  (iv) The
canonical self-referential list `l = []; l.append(l)` hashes, for every
sufficient budget, to the same digest — the `list` type name joined
with the digest of the single cycle-placeholder chunk. -/
theorem c9_cycle_tolerance :
    (∀ (heap : Heap) (fuel : Nat) (objId : Nat) (stack : List Nat),
      objId ∈ stack →
      hashObj heap (fuel + 1) objId stack = .ok (cyclePlaceholder, stack)) ∧
    (∀ (heap : Heap) (fuel : Nat) (objId : Nat) (stack : List Nat),
      outcomeStack (hashObj heap fuel objId stack) = stack) ∧
    (∀ (heap : Heap) (fuel : Nat) (objId : Nat) (stack : List Nat),
      freshCount heap stack < fuel →
      isOutOfFuel (hashObj heap fuel objId stack) = false) ∧
    (∀ g : Nat, hashObj selfRefHeap (g + 2) 0 [] =
      .ok (strCodes "list" ++ strCodes ":" ++ md5digest [cyclePlaceholder],
        [])) := by
  refine ⟨?_, ?_, ?_, ?_⟩
  · intro heap fuel objId stack hmem
    simp [hashObj, hmem]
  · intro heap fuel objId stack
    exact (hash_stack_restored heap fuel).1 objId stack
  · intro heap fuel objId stack h
    exact (hash_no_fuel_exhaustion heap fuel).1 objId stack h
  · intro g
    simp [hashObj, hashIds, selfRefHeap, List.lookup, hnodeTypeName]

/-- C9 witness: the parts of the cycle-tolerance theorem at concrete
inputs — an identity already on the stack yields the placeholder; the
self-referential list restores the empty stack, does not exhaust a
budget of 2 (its heap has a single identity), and hashes to the
placeholder-based digest. -/
theorem c9_cycle_tolerance_witness :
    (hashObj ([] : Heap) 1 3 [3] = .ok (cyclePlaceholder, [3])) ∧
    (outcomeStack (hashObj selfRefHeap 2 0 []) = []) ∧
    (isOutOfFuel (hashObj selfRefHeap 2 0 []) = false) ∧
    (hashObj selfRefHeap 2 0 [] =
      .ok (strCodes "list" ++ strCodes ":" ++ md5digest [cyclePlaceholder],
        [])) := by
  have h := c9_cycle_tolerance
  refine ⟨h.1 [] 0 3 [3] (by simp), h.2.1 selfRefHeap 2 0 [],
    h.2.2.1 selfRefHeap 2 0 [] ?_, h.2.2.2 0⟩
  show freshCount selfRefHeap [] < 2
  simp [freshCount, selfRefHeap]

end Cachex
